import Mathlib

/-!
# Verification of `pegasus_node_placer_2d` (dwave_networkx drawing, pegasus_layout)

Shallow embedding of the coordinate-mapper core of
`src/dwave_networkx/drawing/pegasus_layout.py` over exact rationals.

The Python function `pegasus_node_placer_2d(G, scale, center, dim)` reads the
geometry `m = G.graph['rows']`, `tile_width = G.graph['tile']`,
`h_offsets = G.graph['horizontal_offsets']`, `v_offsets =
G.graph['vertical_offsets']` from the graph, validates `dim` and `center`,
and returns a closure `_xy_coords(u, w, k, z)` producing an N-dimensional
coordinate vector.  We model:

* real-number arithmetic by `ℚ` (every constant in the source is exactly
  representable as a rational);
* Python sequence indexing `l[k]` (negative indices wrap from the end,
  indices outside `[-len l, len l)` raise `IndexError`) by an
  `Option`-returning lookup `pyIndex`;
* the two construction-time `ValueError`s, and Python's
  `ZeroDivisionError` on `scale /= m * tile_width` when `m * tile_width = 0`,
  by an `Except String` result;
* a call of the returned closure by an `Option (List ℚ)`: `none` is an
  `IndexError` escaping from the offset-table lookup at call time.
-/

namespace PegasusLayout

/-- Python sequence indexing `l[k]`: a negative index counts from the end,
an index outside `[-len l, len l)` raises `IndexError` (here: `none`). -/
def pyIndex (l : List ℚ) (k : ℤ) : Option ℚ :=
  if 0 ≤ k then l.get? k.toNat
  else if 0 ≤ k + (l.length : ℤ) then l.get? (k + (l.length : ℤ)).toNat
  else none

/-- `tile_center = tile_width / 2 - .5` (true division, line 114). -/
def tileCenter (tw : ℕ) : ℚ := (tw : ℚ) / 2 - 1 / 2

/-- The micro-offset `p` (lines 134-137): `p = -.1` if `k % 2` is truthy
(nonzero), else `p = .1`.  Python `%` with positive modulus agrees with
`Int.emod`. -/
def pOffset (k : ℤ) : ℚ := if k % 2 = 0 then 1 / 10 else -(1 / 10)

/-- The unscaled 2-vector `xy` of `_xy_coords` (lines 139-142).  The branch is
selected by the truthiness of `u` (`if u:`), i.e. by `u ≠ 0`; the offset-table
lookup may raise `IndexError`. -/
def xyRaw (tw : ℕ) (ho vo : List ℚ) (u w k z : ℤ) : Option (ℚ × ℚ) :=
  if u ≠ 0 then
    (pyIndex ho k).map (fun off =>
      ((z : ℚ) * (tw : ℚ) + off + tileCenter tw, -(tw : ℚ) * (w : ℚ) - (k : ℚ) - pOffset k))
  else
    (pyIndex vo k).map (fun off =>
      ((tw : ℚ) * (w : ℚ) + (k : ℚ) + pOffset k, -(z : ℚ) * (tw : ℚ) - off - tileCenter tw))

/-- The body of the closure `_xy_coords` (lines 131-145): scale the raw 2-vector
by the (already normalized) scale, pad with `paddims` zeros (`np.hstack`), and
add `center` element-wise (NumPy element-wise `+` on equal-length vectors). -/
def xyCoords (tw : ℕ) (ho vo : List ℚ) (nscale : ℚ) (paddims : ℕ) (center : List ℚ)
    (u w k z : ℤ) : Option (List ℚ) :=
  (xyRaw tw ho vo u w k z).map (fun xy =>
    List.zipWith (fun a b => a + b)
      ([xy.1 * nscale, xy.2 * nscale] ++ List.replicate paddims 0) center)

/-- `pegasus_node_placer_2d` (lines 80-147), with the geometry read from the
graph passed explicitly.  Following the source order: `scale /= m * tile_width`
(line 117, a `ZeroDivisionError` when `m * tile_width = 0`), the `center`
default `np.zeros(dim)` (lines 119-122), the `dim < 2` check (lines 124-126),
the `len(center) != dim` check (lines 128-129), then the closure is returned. -/
def pegasus_node_placer_2d (m tw : ℕ) (ho vo : List ℚ) (scale : ℚ)
    (center : Option (List ℚ)) (dim : ℕ) :
    Except String (ℤ → ℤ → ℤ → ℤ → Option (List ℚ)) :=
  if m * tw = 0 then Except.error "ZeroDivisionError: float division by zero" else
  let c := center.getD (List.replicate dim 0)
  if dim < 2 then Except.error "layout must have at least two dimensions" else
  if c.length ≠ dim then
    Except.error "length of center coordinates must match dimension of layout" else
  Except.ok (xyCoords tw ho vo (scale / ((m : ℚ) * (tw : ℚ))) (dim - 2) c)

/-- `true` iff construction of the placement function succeeds (no exception
is raised before `_xy_coords` is returned). -/
def buildSucceeds (m tw : ℕ) (ho vo : List ℚ) (scale : ℚ)
    (center : Option (List ℚ)) (dim : ℕ) : Bool :=
  match pegasus_node_placer_2d m tw ho vo scale center dim with
  | Except.ok _ => true
  | Except.error _ => false

/-- Swap and negate the first two components of a vector; identity on shorter
vectors.  Used to state the orientation symmetry of the layout. -/
def swapNegFirstTwo : List ℚ → List ℚ
  | a :: b :: t => -b :: -a :: t
  | l => l

end PegasusLayout

namespace PegasusLayout

/-- If no exception fires, construction returns exactly the `_xy_coords`
closure over the normalized scale and the effective center. -/
lemma build_ok_of {m tw : ℕ} {ho vo : List ℚ} {scale : ℚ}
    {center : Option (List ℚ)} {dim : ℕ}
    (hmt : m * tw ≠ 0) (hdim : 2 ≤ dim)
    (hc : (center.getD (List.replicate dim 0)).length = dim) :
    pegasus_node_placer_2d m tw ho vo scale center dim =
      Except.ok (xyCoords tw ho vo (scale / ((m : ℚ) * (tw : ℚ))) (dim - 2)
        (center.getD (List.replicate dim 0))) := by
  unfold pegasus_node_placer_2d
  rw [if_neg hmt, if_neg (by omega : ¬ dim < 2), if_neg (by simp [hc])]

/-- Conversely, a successful construction pins down the returned closure and
forces all three validation conditions. -/
lemma build_ok_inv {m tw : ℕ} {ho vo : List ℚ} {scale : ℚ}
    {center : Option (List ℚ)} {dim : ℕ}
    {f : ℤ → ℤ → ℤ → ℤ → Option (List ℚ)}
    (h : pegasus_node_placer_2d m tw ho vo scale center dim = Except.ok f) :
    m * tw ≠ 0 ∧ 2 ≤ dim ∧
      (center.getD (List.replicate dim 0)).length = dim ∧
      f = xyCoords tw ho vo (scale / ((m : ℚ) * (tw : ℚ))) (dim - 2)
        (center.getD (List.replicate dim 0)) := by
  unfold pegasus_node_placer_2d at h
  by_cases hmt : m * tw = 0
  · rw [if_pos hmt] at h; exact absurd h (by simp)
  rw [if_neg hmt] at h
  by_cases hdim : dim < 2
  · rw [if_pos hdim] at h; exact absurd h (by simp)
  rw [if_neg hdim] at h
  by_cases hc : (center.getD (List.replicate dim 0)).length ≠ dim
  · rw [if_pos hc] at h; exact absurd h (by simp)
  rw [if_neg hc] at h
  refine ⟨hmt, by omega, by omega, ?_⟩
  exact (Except.ok.inj h).symm

lemma pyIndex_of_nonneg {l : List ℚ} {k : ℤ} (h : 0 ≤ k) :
    pyIndex l k = l.get? k.toNat := by
  unfold pyIndex
  rw [if_pos h]

/-- Python indexing succeeds exactly on the indexable range `[-len l, len l)`. -/
lemma pyIndex_isSome {l : List ℚ} {k : ℤ}
    (h1 : -(l.length : ℤ) ≤ k) (h2 : k < (l.length : ℤ)) :
    (pyIndex l k).isSome = true := by
  unfold pyIndex
  by_cases h0 : 0 ≤ k
  · rw [if_pos h0, List.get?_eq_get (by omega : k.toNat < l.length)]
    rfl
  · rw [if_neg h0, if_pos (by omega : (0 : ℤ) ≤ k + l.length),
      List.get?_eq_get (by omega : (k + (l.length : ℤ)).toNat < l.length)]
    rfl

lemma zipWith_add_sub_cancel :
    ∀ (b c : List ℚ), b.length = c.length →
      List.zipWith (fun a x => a - x) (List.zipWith (fun a x => a + x) b c) c = b
  | [], [], _ => rfl
  | [], _ :: _, h => by simp at h
  | _ :: _, [], h => by simp at h
  | a :: b, x :: c, h => by
    simp only [List.zipWith_cons_cons, List.cons.injEq]
    exact ⟨by ring, zipWith_add_sub_cancel b c (by simpa using h)⟩

lemma zipWith_add_replicate_zero :
    ∀ c : List ℚ,
      List.zipWith (fun a x => a + x) (List.replicate c.length 0) c = c
  | [] => rfl
  | x :: c => by
    simp only [List.length_cons, List.replicate_succ, List.zipWith_cons_cons,
      List.cons.injEq]
    exact ⟨by ring, zipWith_add_replicate_zero c⟩

lemma zipWith_add_sub_shift :
    ∀ (b c1 c2 : List ℚ), b.length = c1.length → c1.length = c2.length →
      List.zipWith (fun a x => a + x) b c1 =
        List.zipWith (fun a x => a + x)
          (List.zipWith (fun a x => a - x) c1 c2)
          (List.zipWith (fun a x => a + x) b c2)
  | [], [], [], _, _ => rfl
  | [], _ :: _, _, h, _ => by simp at h
  | _ :: _, [], _, h, _ => by simp at h
  | _ :: _, _ :: _, [], _, h => by simp at h
  | [], _, _ :: _, h, h2 => by simp at h; simp [← h] at h2
  | a :: b, x :: c1, y :: c2, h, h2 => by
    simp only [List.zipWith_cons_cons, List.cons.injEq]
    exact ⟨by ring,
      zipWith_add_sub_shift b c1 c2 (by simpa using h) (by simpa using h2)⟩

/-- `p` agrees with the spec's parity rule: `-0.1` for odd `k`, `+0.1` for
even `k` (Euclidean `%` keeps `k % 2` in `{0, 1}`). -/
lemma pOffset_eq_odd (k : ℤ) :
    pOffset k = if k % 2 = 1 then -(1 / 10 : ℚ) else 1 / 10 := by
  unfold pOffset
  rcases Int.emod_two_eq_zero_or_one k with h | h <;> simp [h]

end PegasusLayout

namespace PegasusLayout

/-- The placed vector exactly as the spec's words describe it (claim C1):
`p = -0.1` if `k` is odd else `+0.1`; `tile_center = tile_width/2 - 0.5`;
`(x, y)` by orientation with `offH = horizontal_offsets[k]`,
`offV = vertical_offsets[k]`; multiplied by the normalized scale
`s/(m*tile_width)`, padded with `dim - 2` zeros, with `c` added
element-wise. -/
def claimedPlacement (m tw : ℕ) (offH offV : ℚ) (s : ℚ) (c : List ℚ) (dim : ℕ)
    (u w k z : ℤ) : List ℚ :=
  let p : ℚ := if k % 2 = 1 then -(1 / 10) else 1 / 10
  let tc : ℚ := (tw : ℚ) / 2 - 1 / 2
  let ns : ℚ := s / ((m : ℚ) * (tw : ℚ))
  let x : ℚ := if u = 1 then (z : ℚ) * (tw : ℚ) + offH + tc
    else (tw : ℚ) * (w : ℚ) + (k : ℚ) + p
  let y : ℚ := if u = 1 then -((tw : ℚ) * (w : ℚ) + (k : ℚ) + p)
    else -((z : ℚ) * (tw : ℚ) + offV + tc)
  List.zipWith (fun a b => a + b) ([x * ns, y * ns] ++ List.replicate (dim - 2) 0) c

/-- C1: for `u ∈ {0, 1}`, `0 ≤ k < tile_width`, offset tables holding
`horizontal_offsets[k] = offH` and `vertical_offsets[k] = offV`, a center of
length `dim ≥ 2` and a positive geometry, the constructed placement function
returns exactly the spec's vector: the orientation-dependent `(x, y)` scaled by
`s/(m*tile_width)`, padded with `dim - 2` zeros, plus the center. -/
theorem C1_placement_formula
    (m tw : ℕ) (ho vo : List ℚ) (s : ℚ) (c : List ℚ) (dim : ℕ)
    (u w k z : ℤ) (offH offV : ℚ)
    (hm : 0 < m) (htw : 0 < tw) (hdim : 2 ≤ dim) (hc : c.length = dim)
    (hu : u = 0 ∨ u = 1) (hk0 : 0 ≤ k) (hktw : k < (tw : ℤ))
    (hoffH : ho.get? k.toNat = some offH) (hoffV : vo.get? k.toNat = some offV) :
    (pegasus_node_placer_2d m tw ho vo s (some c) dim).map (fun f => f u w k z) =
      Except.ok (some (claimedPlacement m tw offH offV s c dim u w k z)) := by
  rw [build_ok_of (Nat.mul_ne_zero (by omega) (by omega)) hdim (by simpa using hc)]
  simp only [Option.getD_some, Except.map]
  unfold xyCoords xyRaw claimedPlacement
  rw [pOffset_eq_odd]
  rcases hu with hu | hu <;> subst hu
  · rw [if_neg (by simp), pyIndex_of_nonneg hk0, hoffV]
    norm_num [tileCenter]
    refine congrArg (fun l => List.zipWith (fun a b => a + b) l c) ?_
    simp only [List.cons.injEq, and_true]
    exact ⟨by ring_nf, by ring_nf⟩
  · rw [if_pos (by decide), pyIndex_of_nonneg hk0, hoffH]
    norm_num [tileCenter]
    refine congrArg (fun l => List.zipWith (fun a b => a + b) l c) ?_
    simp only [List.cons.injEq, and_true]
    exact ⟨by ring_nf, by ring_nf⟩

/-- C1 witness at the concrete configuration of the spec's worked example. -/
theorem C1_placement_formula_witness :
    (pegasus_node_placer_2d 1 4 [0, 1, 2, 3] [0, 1, 2, 3] 1 (some [0, 0]) 2).map
        (fun f => f 1 0 0 0) =
      Except.ok (some (claimedPlacement 1 4 0 0 1 [0, 0] 2 1 0 0 0)) :=
  C1_placement_formula 1 4 [0, 1, 2, 3] [0, 1, 2, 3] 1 [0, 0] 2 1 0 0 0 0 0
    (by decide) (by decide) (by decide) (by decide) (Or.inr rfl)
    (by decide) (by decide) rfl rfl

/-- C2: the spec's worked example. With geometry `m = 1`, `tile_width = 4`,
`horizontal_offsets = vertical_offsets = [0,1,2,3]`, `scale = 1`, `center`
defaulted, `dim = 2`, the placement function maps `(1, 0, 0, 0)` to exactly
`(0.375, -0.025)`. -/
theorem C2_worked_example :
    (pegasus_node_placer_2d 1 4 [0, 1, 2, 3] [0, 1, 2, 3] 1 none 2).map
      (fun f => f 1 0 0 0) = Except.ok (some [(0.375 : ℚ), (-0.025 : ℚ)]) := by
  norm_num [pegasus_node_placer_2d, xyCoords, xyRaw, pyIndex, pOffset, tileCenter,
    Except.map, List.replicate, List.zipWith]

/-- C3: with a positive geometry, construction succeeds iff `dim ≥ 2` and any
explicitly supplied center has length `dim`; both `ValueError`s fire at
construction time (the `Except` is resolved before the closure exists). -/
theorem C3_construction_error_iff
    (m tw : ℕ) (ho vo : List ℚ) (s : ℚ) (center : Option (List ℚ)) (dim : ℕ)
    (hm : 0 < m) (htw : 0 < tw) :
    buildSucceeds m tw ho vo s center dim = true ↔
      (2 ≤ dim ∧ ∀ c, center = some c → c.length = dim) := by
  have hmt : m * tw ≠ 0 := Nat.mul_ne_zero (by omega) (by omega)
  unfold buildSucceeds pegasus_node_placer_2d
  rw [if_neg hmt]
  by_cases hdim : dim < 2
  · rw [if_pos hdim]
    simp only [Bool.false_eq_true, false_iff, not_and]
    intro h2
    omega
  · rw [if_neg hdim]
    cases center with
    | none =>
      rw [if_neg (by simp)]
      simp only [true_iff]
      exact ⟨by omega, by simp⟩
    | some c =>
      by_cases hc : c.length = dim
      · rw [if_neg (by simp [hc])]
        simp only [true_iff]
        refine ⟨by omega, ?_⟩
        rintro c2 hc2
        cases hc2
        exact hc
      · rw [if_pos (by simp [hc])]
        simp only [Bool.false_eq_true, false_iff, not_and]
        intro h2 hall
        exact hc (hall c rfl)

/-- C3 witness: `dim = 1` with a positive geometry fails construction. -/
theorem C3_construction_error_iff_witness :
    buildSucceeds 1 4 [0] [0] 1 none 1 = true ↔
      (2 ≤ 1 ∧ ∀ c, (none : Option (List ℚ)) = some c → c.length = 1) :=
  C3_construction_error_iff 1 4 [0] [0] 1 none 1 (by decide) (by decide)

/-- C4 counterexample: with the geometry of the spec's worked example the
placement function is constructed successfully, yet at `k = 4 = tile_width`
(an out-of-range shift the claim covers) the call raises `IndexError`
(returns no coordinate vector): the offset table `[0,1,2,3]` has no index 4. -/
theorem C4_out_of_range_counterexample :
    (pegasus_node_placer_2d 1 4 [0, 1, 2, 3] [0, 1, 2, 3] 1 none 2).map
      (fun f => (f 1 0 4 0).isSome) = Except.ok false := by
  rfl

/-- C4 (amended): a successfully constructed placement function performs no
range validation of its own and returns a coordinate vector for every integer
index tuple whose `k` lies in the indexable range of both offset tables
(in particular every `0 ≤ k < tile_width` when the tables have length
`≥ tile_width`, and also negative `k` down to `-len`); `u`, `w`, `z` are
entirely unconstrained. -/
theorem C4_no_range_validation
    (m tw : ℕ) (ho vo : List ℚ) (s : ℚ) (center : Option (List ℚ)) (dim : ℕ)
    (f : ℤ → ℤ → ℤ → ℤ → Option (List ℚ))
    (hf : pegasus_node_placer_2d m tw ho vo s center dim = Except.ok f)
    (u w k z : ℤ)
    (hk1 : -(ho.length : ℤ) ≤ k) (hk2 : k < (ho.length : ℤ))
    (hk3 : -(vo.length : ℤ) ≤ k) (hk4 : k < (vo.length : ℤ)) :
    (f u w k z).isSome = true := by
  obtain ⟨-, -, -, hfe⟩ := build_ok_inv hf
  subst hfe
  unfold xyCoords xyRaw
  by_cases hu : u ≠ 0
  · rw [if_pos hu]
    have hs := pyIndex_isSome hk1 hk2
    cases hpy : pyIndex ho k with
    | none => rw [hpy] at hs; simp at hs
    | some off => rfl
  · rw [if_neg hu]
    have hs := pyIndex_isSome hk3 hk4
    cases hpy : pyIndex vo k with
    | none => rw [hpy] at hs; simp at hs
    | some off => rfl

/-- C4 witness: the concrete placer built from the worked-example geometry
returns a vector at the geometrically meaningless index `(5, 7, 2, 9)`. -/
theorem C4_no_range_validation_witness :
    ((xyCoords 4 [0, 1, 2, 3] [0, 1, 2, 3]
        ((1 : ℚ) / (((1 : ℕ) : ℚ) * ((4 : ℕ) : ℚ))) 0
        (List.replicate 2 0)) 5 7 2 9).isSome = true :=
  C4_no_range_validation 1 4 [0, 1, 2, 3] [0, 1, 2, 3] 1 none 2
    (xyCoords 4 [0, 1, 2, 3] [0, 1, 2, 3]
      ((1 : ℚ) / (((1 : ℕ) : ℚ) * ((4 : ℕ) : ℚ))) 0 (List.replicate 2 0))
    rfl 5 7 2 9 (by decide) (by decide) (by decide) (by decide)

/-- C5: scale linearity.  For fixed geometry, center and dimension, the
displacement from the center of the placer built with scale `2 * s` is exactly
twice the displacement of the placer built with scale `s`, at every index
tuple (construction errors and `IndexError`s agree on both sides). -/
theorem C5_scale_linearity
    (m tw : ℕ) (ho vo : List ℚ) (s : ℚ) (c : List ℚ) (dim : ℕ) (u w k z : ℤ) :
    (pegasus_node_placer_2d m tw ho vo (2 * s) (some c) dim).map
      (fun f => (f u w k z).map (fun v => List.zipWith (fun a x => a - x) v c)) =
    (pegasus_node_placer_2d m tw ho vo s (some c) dim).map
      (fun f => (f u w k z).map (fun v =>
        (List.zipWith (fun a x => a - x) v c).map (fun t => 2 * t))) := by
  unfold pegasus_node_placer_2d
  by_cases hmt : m * tw = 0
  · rw [if_pos hmt, if_pos hmt]; rfl
  rw [if_neg hmt, if_neg hmt]
  by_cases hdim : dim < 2
  · rw [if_pos hdim, if_pos hdim]; rfl
  rw [if_neg hdim, if_neg hdim]
  simp only [Option.getD_some]
  by_cases hc : c.length ≠ dim
  · rw [if_pos hc, if_pos hc]; rfl
  rw [if_neg hc, if_neg hc]
  simp only [Except.map]
  unfold xyCoords
  cases hxy : xyRaw tw ho vo u w k z with
  | none => rfl
  | some xy =>
    simp only [Option.map_some']
    have hlen : ∀ a b : ℚ,
        ([a, b] ++ List.replicate (dim - 2) (0 : ℚ)).length = c.length := by
      intro a b
      simp
      omega
    rw [zipWith_add_sub_cancel _ _ (hlen _ _), zipWith_add_sub_cancel _ _ (hlen _ _)]
    simp only [List.map_append, List.map_cons, List.map_nil, List.map_replicate, mul_zero]
    refine congrArg Except.ok (congrArg some ?_)
    simp only [List.cons_append, List.nil_append, List.cons.injEq]
    exact ⟨by ring, by ring, trivial⟩

/-- C6: center translation.  For fixed geometry, scale and dimension and two
centers of length `dim`, the output of the placer built with center `c1` is,
at every index tuple, the output of the placer built with center `c2` plus
`c1 - c2` element-wise (equivalently, the difference of the two outputs is
exactly `c1 - c2`). -/
theorem C6_center_translation
    (m tw : ℕ) (ho vo : List ℚ) (s : ℚ) (c1 c2 : List ℚ) (dim : ℕ)
    (u w k z : ℤ) (h1 : c1.length = dim) (h2 : c2.length = dim) :
    (pegasus_node_placer_2d m tw ho vo s (some c1) dim).map
      (fun f => f u w k z) =
    (pegasus_node_placer_2d m tw ho vo s (some c2) dim).map
      (fun f => (f u w k z).map (fun v =>
        List.zipWith (fun a x => a + x)
          (List.zipWith (fun a x => a - x) c1 c2) v)) := by
  unfold pegasus_node_placer_2d
  by_cases hmt : m * tw = 0
  · rw [if_pos hmt, if_pos hmt]; rfl
  rw [if_neg hmt, if_neg hmt]
  by_cases hdim : dim < 2
  · rw [if_pos hdim, if_pos hdim]; rfl
  rw [if_neg hdim, if_neg hdim]
  simp only [Option.getD_some]
  rw [if_neg (by simp [h1]), if_neg (by simp [h2])]
  simp only [Except.map]
  unfold xyCoords
  cases hxy : xyRaw tw ho vo u w k z with
  | none => rfl
  | some xy =>
    simp only [Option.map_some']
    refine congrArg Except.ok (congrArg some ?_)
    exact zipWith_add_sub_shift _ c1 c2 (by simp; omega) (h1.trans h2.symm)

/-- C6 witness at a concrete pair of centers. -/
theorem C6_center_translation_witness :
    (pegasus_node_placer_2d 1 4 [0, 1, 2, 3] [0, 1, 2, 3] 1 (some [1, 2]) 2).map
      (fun f => f 1 0 0 0) =
    (pegasus_node_placer_2d 1 4 [0, 1, 2, 3] [0, 1, 2, 3] 1 (some [0, 0]) 2).map
      (fun f => (f 1 0 0 0).map (fun v =>
        List.zipWith (fun a x => a + x)
          (List.zipWith (fun a x => a - x) [1, 2] [0, 0]) v)) :=
  C6_center_translation 1 4 [0, 1, 2, 3] [0, 1, 2, 3] 1 [1, 2] [0, 0] 2 1 0 0 0
    (by decide) (by decide)

/-- C7: determinism.  The constructed placement function is a pure function of
its index tuple: any two closures obtained from the same geometry, scale,
center and dimension agree on every index tuple (there is no mutable state the
output could depend on). -/
theorem C7_determinism
    (m tw : ℕ) (ho vo : List ℚ) (s : ℚ) (center : Option (List ℚ)) (dim : ℕ)
    (f g : ℤ → ℤ → ℤ → ℤ → Option (List ℚ))
    (hf : pegasus_node_placer_2d m tw ho vo s center dim = Except.ok f)
    (hg : pegasus_node_placer_2d m tw ho vo s center dim = Except.ok g)
    (u w k z : ℤ) :
    f u w k z = g u w k z := by
  injection hf.symm.trans hg with h
  rw [h]

/-- C7 witness: two identical constructions agree at `(1, 0, 0, 0)`. -/
theorem C7_determinism_witness :
    (xyCoords 4 [0, 1, 2, 3] [0, 1, 2, 3]
        ((1 : ℚ) / (((1 : ℕ) : ℚ) * ((4 : ℕ) : ℚ))) 0 (List.replicate 2 0)) 1 0 0 0 =
    (xyCoords 4 [0, 1, 2, 3] [0, 1, 2, 3]
        ((1 : ℚ) / (((1 : ℕ) : ℚ) * ((4 : ℕ) : ℚ))) 0 (List.replicate 2 0)) 1 0 0 0 :=
  C7_determinism 1 4 [0, 1, 2, 3] [0, 1, 2, 3] 1 none 2
    (xyCoords 4 [0, 1, 2, 3] [0, 1, 2, 3]
      ((1 : ℚ) / (((1 : ℕ) : ℚ) * ((4 : ℕ) : ℚ))) 0 (List.replicate 2 0))
    (xyCoords 4 [0, 1, 2, 3] [0, 1, 2, 3]
      ((1 : ℚ) / (((1 : ℕ) : ℚ) * ((4 : ℕ) : ℚ))) 0 (List.replicate 2 0))
    rfl rfl 1 0 0 0

/-- C8: orientation symmetry.  When the two offset tables coincide, for every
`(w, k, z)` the displacement from the center at `(1, w, k, z)` is obtained from
the displacement at `(0, w, k, z)` by swapping the first two components and
negating both (the parity micro-offset `p` enters both branches by the same
rule, which is what makes the swap exact). -/
theorem C8_orientation_symmetry
    (m tw : ℕ) (o : List ℚ) (s : ℚ) (c : List ℚ) (dim : ℕ) (w k z : ℤ) :
    (pegasus_node_placer_2d m tw o o s (some c) dim).map
      (fun f => (f 1 w k z).map (fun v => List.zipWith (fun a x => a - x) v c)) =
    (pegasus_node_placer_2d m tw o o s (some c) dim).map
      (fun f => (f 0 w k z).map (fun v =>
        swapNegFirstTwo (List.zipWith (fun a x => a - x) v c))) := by
  cases hb : pegasus_node_placer_2d m tw o o s (some c) dim with
  | error e => rfl
  | ok f =>
    obtain ⟨hmt, hdim, hclen, hfe⟩ := build_ok_inv hb
    subst hfe
    simp only [Option.getD_some] at hclen ⊢
    simp only [Except.map]
    refine congrArg Except.ok ?_
    unfold xyCoords xyRaw
    rw [if_pos (by decide : (1 : ℤ) ≠ 0), if_neg (by decide : ¬ (0 : ℤ) ≠ 0)]
    cases hpy : pyIndex o k with
    | none => rfl
    | some off =>
      simp only [Option.map_some']
      refine congrArg some ?_
      have hlen : ∀ a b : ℚ,
          ([a, b] ++ List.replicate (dim - 2) (0 : ℚ)).length = c.length := by
        intro a b
        simp
        omega
      rw [zipWith_add_sub_cancel _ _ (hlen _ _), zipWith_add_sub_cancel _ _ (hlen _ _)]
      simp only [List.cons_append, List.nil_append, swapNegFirstTwo, List.cons.injEq]
      exact ⟨by ring, by ring, trivial⟩

/-- C9: the orientation branch is selected by the truthiness of `u`, not by
equality with 1: for any nonzero integer `u` the placement function agrees
with `u = 1` at the same `(w, k, z)`. -/
theorem C9_truthiness_dispatch
    (m tw : ℕ) (ho vo : List ℚ) (s : ℚ) (center : Option (List ℚ)) (dim : ℕ)
    (u w k z : ℤ) (hu : u ≠ 0) :
    (pegasus_node_placer_2d m tw ho vo s center dim).map (fun f => f u w k z) =
    (pegasus_node_placer_2d m tw ho vo s center dim).map (fun f => f 1 w k z) := by
  cases hb : pegasus_node_placer_2d m tw ho vo s center dim with
  | error e => rfl
  | ok f =>
    obtain ⟨-, -, -, hfe⟩ := build_ok_inv hb
    subst hfe
    simp only [Except.map]
    refine congrArg Except.ok ?_
    unfold xyCoords xyRaw
    rw [if_pos hu, if_pos (by decide : (1 : ℤ) ≠ 0)]

/-- C9 witness: `u = 2` behaves exactly as `u = 1`. -/
theorem C9_truthiness_dispatch_witness :
    (pegasus_node_placer_2d 1 4 [0, 1, 2, 3] [0, 1, 2, 3] 1 none 2).map
      (fun f => f 2 0 0 0) =
    (pegasus_node_placer_2d 1 4 [0, 1, 2, 3] [0, 1, 2, 3] 1 none 2).map
      (fun f => f 1 0 0 0) :=
  C9_truthiness_dispatch 1 4 [0, 1, 2, 3] [0, 1, 2, 3] 1 none 2 2 0 0 0 (by decide)

/-- C10 counterexample: with `scale = 0` the placement function does NOT map
every index tuple to the center: at `k = 4` (outside the offset table) the
call raises `IndexError` instead of returning the center vector. -/
theorem C10_zero_scale_counterexample :
    (pegasus_node_placer_2d 1 4 [0, 1, 2, 3] [0, 1, 2, 3] 0 none 2).map
      (fun f => f 1 0 4 0) ≠ Except.ok (some (List.replicate 2 0)) := by
  have e : (pegasus_node_placer_2d 1 4 [0, 1, 2, 3] [0, 1, 2, 3] 0 none 2).map
      (fun f => f 1 0 4 0) = Except.ok (none : Option (List ℚ)) := rfl
  rw [e]
  simp

/-- C10 (amended): the scale is never validated — construction succeeds for
every rational scale, including 0 and negative values — and with `scale = 0`
the placement function maps every index tuple whose `k` is inside the
indexable range of both offset tables exactly to the center vector. -/
theorem C10_scale_unvalidated
    (m tw : ℕ) (ho vo : List ℚ) (c : List ℚ) (dim : ℕ)
    (hm : 0 < m) (htw : 0 < tw) (hdim : 2 ≤ dim) (hc : c.length = dim) :
    (∀ s : ℚ, buildSucceeds m tw ho vo s (some c) dim = true) ∧
    (∀ u w k z : ℤ,
      -(ho.length : ℤ) ≤ k → k < (ho.length : ℤ) →
      -(vo.length : ℤ) ≤ k → k < (vo.length : ℤ) →
      (pegasus_node_placer_2d m tw ho vo 0 (some c) dim).map (fun f => f u w k z) =
        Except.ok (some c)) := by
  have hmt : m * tw ≠ 0 := Nat.mul_ne_zero (by omega) (by omega)
  constructor
  · intro s
    unfold buildSucceeds
    rw [build_ok_of hmt hdim (by simpa using hc)]
  · intro u w k z hk1 hk2 hk3 hk4
    rw [build_ok_of hmt hdim (by simpa using hc)]
    simp only [Option.getD_some, Except.map]
    refine congrArg Except.ok ?_
    have key : ∀ x y : ℚ,
        List.zipWith (fun a b => a + b)
          ([x * ((0 : ℚ) / ((m : ℚ) * (tw : ℚ))), y * ((0 : ℚ) / ((m : ℚ) * (tw : ℚ)))] ++
            List.replicate (dim - 2) 0) c = c := by
      intro x y
      obtain ⟨d2, hd2⟩ : ∃ d2, dim = d2 + 2 := ⟨dim - 2, by omega⟩
      subst hd2
      rw [zero_div, mul_zero, mul_zero]
      have h00 : ([(0 : ℚ), 0] ++ List.replicate (d2 + 2 - 2) (0 : ℚ)) =
          List.replicate c.length 0 := by
        simp [hc, List.replicate_succ]
      rw [h00, zipWith_add_replicate_zero]
    unfold xyCoords xyRaw
    by_cases hu : u ≠ 0
    · rw [if_pos hu]
      have hs := pyIndex_isSome hk1 hk2
      cases hpy : pyIndex ho k with
      | none => rw [hpy] at hs; simp at hs
      | some off =>
        simp only [Option.map_some']
        exact congrArg some (key _ _)
    · rw [if_neg hu]
      have hs := pyIndex_isSome hk3 hk4
      cases hpy : pyIndex vo k with
      | none => rw [hpy] at hs; simp at hs
      | some off =>
        simp only [Option.map_some']
        exact congrArg some (key _ _)

/-- C10 witness: with `scale = 0` and a center of length 2 the placer returns
exactly the center at an in-range index; construction succeeded for scale 0. -/
theorem C10_scale_unvalidated_witness :
    (pegasus_node_placer_2d 1 4 [0, 1, 2, 3] [0, 1, 2, 3] 0 (some [5, 7]) 2).map
      (fun f => f 1 0 0 0) = Except.ok (some [5, 7]) :=
  (C10_scale_unvalidated 1 4 [0, 1, 2, 3] [0, 1, 2, 3] [5, 7] 2 (by decide)
    (by decide) (by decide) (by decide)).2 1 0 0 0
    (by decide) (by decide) (by decide) (by decide)

end PegasusLayout
